import Mathlib

/-
Verification of the BlackRoad document-automation engine
(src/document_automation.py): placeholder extraction and substitution,
template upsert versioning, the document draft/exported status machine,
and export formatting / file bookkeeping.

Modelling conventions:
* strings are Lean `String`s (lists of chars); the regex `\{\{([^}]+)\}\}`
  used by `_render` (re.sub) and `_extract_vars` (re.findall) is embedded
  as an explicit left-to-right scanner `tokenizeF` over the char list
  (a match at a position needs `{{`, a nonempty maximal run of non-`}`
  chars, then `}}`; on failure the scan advances one char, on success it
  resumes after the match — exactly Python's non-overlapping scan);
* the sqlite rows live in an in-memory `EngineState` (lists of rows plus
  autoincrement counters starting at 1, like sqlite rowids);
* `datetime.utcnow()` readings are abstract second-resolution clock values
  (`Nat`), passed to each operation as an explicit `ts` argument; the
  `strftime("%Y%m%d_%H%M%S")` tag is injective per second, modelled by
  `toString ts`;
* the file system is an association list path -> content; `write_text`
  overwrites the entry at its path; `stat().st_size` of a utf-8 write is
  the utf-8 byte length of the content;
* Python exceptions become `Except`: `KeyError` on template lookup is
  `EngineError.templateNotFound`, the `ValueError` re-raised by
  `DocumentEngine.render` on substitution failure is
  `EngineError.missingVariable`, `KeyError` on document lookup is
  `EngineError.documentNotFound`.
-/

deriving instance DecidableEq for Except

namespace DocAuto

/-- Tokens produced by scanning template text with the placeholder regex:
a literal character, or a matched `\x7b\x7bgroup\x7d\x7d` with its captured
(untrimmed) group. -/
inductive Tok where
  | lit (c : Char)
  | ph (group : List Char)
  deriving DecidableEq

/-- Attempt a regex match of `\{\{([^}]+)\}\}` at the head of the list.
Returns the captured group and the remainder after the match. The group is
the maximal nonempty run of non-`\x7d` characters after the two opening
braces; it must be followed by two closing braces (the regex cannot
backtrack to a shorter group, since every shorter cut is followed by a
non-`\x7d` character). -/
def phSplit : List Char → Option (List Char × List Char)
  | '\x7b' :: '\x7b' :: rest =>
    let run := rest.takeWhile (fun d => d != '\x7d')
    match rest.dropWhile (fun d => d != '\x7d') with
    | '\x7d' :: '\x7d' :: rest2 => if run.isEmpty then none else some (run, rest2)
    | _ => none
  | _ => none

/-- Fuel-indexed left-to-right scan of template text, as performed by
`re.sub`/`re.findall`: at each position try a match; on success emit a
`ph` token and resume after it, otherwise emit the current character as a
literal and advance one position. Each step consumes at least one
character, so fuel equal to the length of the input suffices. -/
def tokenizeF : Nat → List Char → List Tok
  | 0, _ => []
  | _ + 1, [] => []
  | f + 1, c :: cs =>
    match phSplit (c :: cs) with
    | some (run, rest2) => Tok.ph run :: tokenizeF f rest2
    | none => Tok.lit c :: tokenizeF f cs

/-- Scan template text into literal/placeholder tokens. -/
def tokenize (l : List Char) : List Tok := tokenizeF l.length l

/-- Python `str.strip()` on a char list: drop leading and trailing
whitespace. -/
def stripChars (l : List Char) : List Char :=
  ((l.dropWhile Char.isWhitespace).reverse.dropWhile Char.isWhitespace).reverse

/-- Python `str.strip()` on a `String`. -/
def stripName (s : String) : String := String.mk (stripChars s.data)

/-- Dictionary lookup: Python `key in variables` / `variables[key]`, the
mapping modelled as an association list. -/
def lookupV (vars : List (String × String)) (k : String) : Option String :=
  (vars.find? (fun p => p.1 == k)).map Prod.snd

/-- The replacement pass of `_render` over the token stream: literals pass
through, each placeholder is replaced by the value of its stripped key,
and the first missing key aborts the whole substitution with that key
(Python's `replace` callback raising `KeyError`). -/
def substToks (vars : List (String × String)) : List Tok → Except String (List Char)
  | [] => Except.ok []
  | Tok.lit c :: ts => (substToks vars ts).map (fun out => c :: out)
  | Tok.ph g :: ts =>
    let key := String.mk (stripChars g)
    match lookupV vars key with
    | some v => (substToks vars ts).map (fun out => v.data ++ out)
    | none => Except.error key

/-- The stripped captured groups of the token stream, in scan order, with
duplicates (Python `re.findall` + per-match `strip()`). -/
def phNamesT : List Tok → List String
  | [] => []
  | Tok.lit _ :: ts => phNamesT ts
  | Tok.ph g :: ts => String.mk (stripChars g) :: phNamesT ts

/-- First-occurrence-order deduplication with an accumulator of names
already seen (Python `dict.fromkeys`). -/
def dedupAux (seen : List String) : List String → List String
  | [] => []
  | x :: xs => if x ∈ seen then dedupAux seen xs else x :: dedupAux (x :: seen) xs

/-- Spec-side join of a successful substitution: every literal character
of the scan passes through unchanged and every placeholder token of the
input contributes exactly the value mapped to its stripped name (an
unmapped name contributes nothing here, but then substitution fails and
returns no output at all). A successful output being equal to this join
is the formal reading of "the returned text contains zero remaining
placeholder tokens that were present in the input": each input
placeholder occurrence is consumed and replaced exactly once. -/
def substOutput (vars : List (String × String)) : List Tok → List Char
  | [] => []
  | Tok.lit c :: ts => c :: substOutput vars ts
  | Tok.ph g :: ts =>
    (match lookupV vars (String.mk (stripChars g)) with
      | some v => v.data
      | none => []) ++ substOutput vars ts

/-- Spec-side description of first-occurrence-order deduplication,
following the spec's words: keep the first occurrence, drop every later
duplicate, preserve the order of what remains. -/
def dedupFirstSpec : List String → List String
  | [] => []
  | x :: xs => x :: dedupFirstSpec (xs.filter (fun y => y != x))
  termination_by l => l.length
  decreasing_by
    simp_wf
    exact Nat.lt_succ_of_le (List.length_filter_le _ xs)

/-- Model of `_render(content, variables)`: substitute placeholders, or
fail with the (stripped) name of the first variable missing from the
mapping. -/
def _render (content : String) (vars : List (String × String)) :
    Except String String :=
  (substToks vars (tokenize content.data)).map String.mk

/-- Model of `_extract_vars(content)`: de-duplicated (first occurrence
kept) list of stripped placeholder names found in the content. -/
def _extract_vars (content : String) : List String :=
  dedupAux [] (phNamesT (tokenize content.data))

/-- Row of the `templates` table / the `Template` dataclass. The Python
field `variables` (a JSON list of names) is modelled as the list itself;
it is named `vars` here because `variables` is reserved in Lean.
Timestamps are abstract clock readings (`Nat`). -/
structure Template where
  id : Nat
  name : String
  content : String
  vars : List String
  category : String
  version : Nat
  created_at : Nat
  updated_at : Nat
  deriving DecidableEq

/-- Row of the `documents` table / the `Document` dataclass; the JSON
`variables_used` dict is modelled as the association list itself. -/
structure Document where
  id : Nat
  template_id : Nat
  template_name : String
  title : String
  content : String
  variables_used : List (String × String)
  fmt : String
  status : String
  created_at : Nat
  deriving DecidableEq

/-- Row of the `export_records` table / the `ExportRecord` dataclass. -/
structure ExportRecord where
  id : Nat
  document_id : Nat
  export_path : String
  export_format : String
  file_size_bytes : Nat
  exported_at : Nat
  deriving DecidableEq

/-- The sqlite database plus the export directory of the file system.
`next...Id` are the autoincrement counters (sqlite rowids start at 1). -/
structure EngineState where
  templates : List Template
  documents : List Document
  exports : List ExportRecord
  files : List (String × String)
  nextTemplateId : Nat
  nextDocId : Nat
  nextExportId : Nat
  deriving DecidableEq

/-- Fresh database and empty export directory. -/
def initState : EngineState := ⟨[], [], [], [], 1, 1, 1⟩

/-- The distinct failure kinds raised by the engine: `KeyError` on a
template lookup, the `ValueError` that `DocumentEngine.render` re-raises
on substitution failure (carrying the missing variable's name), and
`KeyError` on a document lookup. -/
inductive EngineError where
  | templateNotFound (name : String)
  | missingVariable (name : String)
  | documentNotFound (docId : Nat)
  deriving DecidableEq

/-- `SELECT * FROM templates WHERE name=?` (name is UNIQUE; first row). -/
def lookupTemplate (s : EngineState) (name : String) : Option Template :=
  s.templates.find? (fun t => t.name == name)

/-- `SELECT * FROM documents WHERE id=?` (first row). -/
def lookupDocument (s : EngineState) (docId : Nat) : Option Document :=
  s.documents.find? (fun d => d.id == docId)

/-- Contents of the file at `path`, if present. -/
def lookupFile (files : List (String × String)) (path : String) : Option String :=
  (files.find? (fun e => e.1 == path)).map Prod.snd

/-- `Path.write_text`: create or truncate-and-overwrite the file at
`path`. -/
def writeFile (files : List (String × String)) (path content : String) :
    List (String × String) :=
  (path, content) :: files.filter (fun e => e.1 != path)

/-- Byte size of a utf-8 file write, i.e. what `stat().st_size` reports
after `write_text(body, encoding="utf-8")`. -/
def utf8Len (s : String) : Nat := s.data.foldl (fun n c => n + c.utf8Size) 0

/-- `re.sub(r"[^\w\-]", "_", title)`: every character other than a word
character or hyphen becomes an underscore (ASCII reading of `\w`). -/
def slugify (title : String) : String :=
  String.mk (title.data.map (fun c =>
    if c.isAlphanum || c == '_' || c == '-' then c else '_'))

/-- `datetime.utcnow().strftime("%Y%m%d_%H%M%S")`: a textual tag that is
injective per second-resolution clock reading. -/
def tsTag (ts : Nat) : String := toString ts

/-- The export directory `~/.blackroad/documents/`. -/
def DOCS_DIR : String := "~/.blackroad/documents/"

/-- The format wrapping performed inside `DocumentEngine.export_document`:
`html` wraps the content in a minimal page (title as page title and h1,
content in a `<pre>` block, not escaped), `md` prefixes a level-1 heading
and a blank line and appends a newline, anything else is written
verbatim. -/
def formatBody (fmt title content : String) : String :=
  if fmt == "html" then
    "<!DOCTYPE html><html><head><title>" ++ title ++ "</title></head><body><h1>"
      ++ title ++ "</h1><pre>" ++ content ++ "</pre></body></html>"
  else if fmt == "md" then
    "# " ++ title ++ "\n\n" ++ content ++ "\n"
  else content

/-- `DocumentEngine.create_template(name, content, category)`: upsert.
If a row with this name exists, overwrite its content/variables/category,
bump its version and set `updated_at := ts`; otherwise insert a fresh row
at version 1. Returns the Python return value — note that on the update
branch the code builds it with `created_at=ts`, not the stored creation
time. -/
def create_template (s : EngineState) (name content : String)
    (category : String := "general") (ts : Nat := 0) : Template × EngineState :=
  let vars := _extract_vars content
  match lookupTemplate s name with
  | some existing =>
    let ver := existing.version + 1
    let ret : Template := ⟨existing.id, name, content, vars, category, ver, ts, ts⟩
    (ret, { s with templates := s.templates.map (fun t =>
        if t.name == name then
          { t with content := content, vars := vars, category := category,
                   version := ver, updated_at := ts }
        else t) })
  | none =>
    let t : Template := ⟨s.nextTemplateId, name, content, vars, category, 1, ts, ts⟩
    (t, { s with templates := s.templates ++ [t],
                 nextTemplateId := s.nextTemplateId + 1 })

/-- `DocumentEngine.render(template_name, title, variables, fmt)`: look up
the template (else `templateNotFound`), substitute (a missing variable
surfaces as `missingVariable`), and on success insert a new document row
with status `"draft"`. The state is returned unchanged on failure. -/
def render (s : EngineState) (template_name title : String)
    (vars : List (String × String)) (fmt : String := "txt") (ts : Nat := 0) :
    Except EngineError Document × EngineState :=
  match lookupTemplate s template_name with
  | none => (Except.error (EngineError.templateNotFound template_name), s)
  | some row =>
    match _render row.content vars with
    | Except.error key => (Except.error (EngineError.missingVariable key), s)
    | Except.ok content =>
      let doc : Document := ⟨s.nextDocId, row.id, template_name, title, content,
        vars, fmt, "draft", ts⟩
      (Except.ok doc, { s with documents := s.documents ++ [doc],
                               nextDocId := s.nextDocId + 1 })

/-- `DocumentEngine.export_document(doc_id, fmt)`: look up the document
(else `documentNotFound`); the effective format is the override unless it
is falsy (`None` or `""`), in which case the stored format is used; write
the wrapped body to `DOCS_DIR/<slug>_<tstag>.<fmt>`, insert an export
record carrying the written byte size, and set the document's status to
`"exported"` unconditionally. -/
def export_document (s : EngineState) (doc_id : Nat) (fmt : Option String)
    (ts : Nat := 0) : Except EngineError ExportRecord × EngineState :=
  match lookupDocument s doc_id with
  | none => (Except.error (EngineError.documentNotFound doc_id), s)
  | some row =>
    let export_fmt := match fmt with
      | some f => if f == "" then row.fmt else f
      | none => row.fmt
    let out_path := DOCS_DIR ++ slugify row.title ++ "_" ++ tsTag ts ++ "." ++ export_fmt
    let body := formatBody export_fmt row.title row.content
    let record : ExportRecord :=
      ⟨s.nextExportId, doc_id, out_path, export_fmt, utf8Len body, ts⟩
    (Except.ok record,
     { s with files := writeFile s.files out_path body,
              exports := s.exports ++ [record],
              documents := s.documents.map (fun d =>
                if d.id == doc_id then { d with status := "exported" } else d),
              nextExportId := s.nextExportId + 1 })

/-- One call to a core engine operation, with its clock reading. -/
inductive Op where
  | upsert (name content category : String) (ts : Nat)
  | renderDoc (tname title : String) (vars : List (String × String)) (fmt : String) (ts : Nat)
  | exportDoc (docId : Nat) (fmt : Option String) (ts : Nat)

/-- Apply one operation to the state (a failing operation leaves the
state unchanged, as the Python exception paths do). -/
def applyOp (s : EngineState) : Op → EngineState
  | Op.upsert n c cat ts => (create_template s n c cat ts).2
  | Op.renderDoc n t v f ts => (render s n t v f ts).2
  | Op.exportDoc id f ts => (export_document s id f ts).2

/-- States reachable by running a sequence of core operations on a fresh
store. -/
def runOps (ops : List Op) : EngineState := ops.foldl applyOp initState

/-- Concrete operation sequence used to witness the reachable-state
theorems: upsert one template, then render one document from it. -/
def exOps : List Op :=
  [Op.upsert "t" "hi" "general" 0, Op.renderDoc "t" "Doc" [] "txt" 1]

/-- The state reached by `exOps`. -/
def exState : EngineState := runOps exOps

/-- The single document present in `exState`. -/
def exDoc : Document := ⟨1, 1, "t", "Doc", "hi", [], "txt", "draft", 1⟩

/-- Invariant of reachable engine states: every document is in status
`draft` or `exported`, it is `exported` exactly when some export record
references it, document ids are distinct, and ids are below the
autoincrement counters. -/
structure EngineInv (s : EngineState) : Prop where
  status_ok : ∀ d ∈ s.documents, d.status = "draft" ∨ d.status = "exported"
  exported_iff : ∀ d ∈ s.documents,
    (d.status = "exported" ↔ ∃ r ∈ s.exports, r.document_id = d.id)
  doc_ids_nodup : (s.documents.map Document.id).Nodup
  doc_id_lt : ∀ d ∈ s.documents, d.id < s.nextDocId
  rec_id_lt : ∀ r ∈ s.exports, r.id < s.nextExportId
  rec_doc_lt : ∀ r ∈ s.exports, r.document_id < s.nextDocId

theorem mem_dedupAux (a : String) :
    ∀ (l seen : List String), a ∈ dedupAux seen l ↔ (a ∈ l ∧ a ∉ seen) := by
  intro l
  induction l with
  | nil => intro seen; simp [dedupAux]
  | cons x xs ih =>
    intro seen
    by_cases hx : x ∈ seen
    · rw [dedupAux, if_pos hx, ih]
      constructor
      · rintro ⟨h1, h2⟩
        exact ⟨List.mem_cons_of_mem _ h1, h2⟩
      · rintro ⟨h1, h2⟩
        rcases List.mem_cons.mp h1 with h | h
        · subst h; exact absurd hx h2
        · exact ⟨h, h2⟩
    · rw [dedupAux, if_neg hx]
      constructor
      · intro h
        rcases List.mem_cons.mp h with h | h
        · subst h; exact ⟨List.mem_cons_self _ _, hx⟩
        · rcases (ih _).mp h with ⟨h1, h2⟩
          refine ⟨List.mem_cons_of_mem _ h1, fun hs => h2 ?_⟩
          exact List.mem_cons_of_mem _ hs
      · rintro ⟨h1, h2⟩
        rcases List.mem_cons.mp h1 with h | h
        · subst h; exact List.mem_cons_self _ _
        · by_cases hax : a = x
          · subst hax; exact List.mem_cons_self _ _
          · refine List.mem_cons_of_mem _ ((ih _).mpr ⟨h, ?_⟩)
            intro hs
            rcases List.mem_cons.mp hs with h' | h'
            · exact hax h'
            · exact h2 h'

theorem nodup_dedupAux : ∀ (l seen : List String), (dedupAux seen l).Nodup := by
  intro l
  induction l with
  | nil => intro seen; simp [dedupAux]
  | cons x xs ih =>
    intro seen
    by_cases hx : x ∈ seen
    · rw [dedupAux, if_pos hx]; exact ih seen
    · rw [dedupAux, if_neg hx, List.nodup_cons]
      refine ⟨fun hmem => ?_, ih (x :: seen)⟩
      rcases (mem_dedupAux x xs (x :: seen)).mp hmem with ⟨_, h2⟩
      exact h2 (List.mem_cons_self _ _)

theorem substToks_ok_of_covered (vars : List (String × String)) :
    ∀ ts : List Tok, (∀ n ∈ phNamesT ts, (lookupV vars n).isSome) →
      ∃ out, substToks vars ts = Except.ok out := by
  intro ts
  induction ts with
  | nil => intro _; exact ⟨[], rfl⟩
  | cons t ts ih =>
    intro h
    cases t with
    | lit c =>
      obtain ⟨out, hout⟩ := ih (fun n hn => h n (by simpa [phNamesT] using hn))
      exact ⟨c :: out, by simp [substToks, hout, Except.map]⟩
    | ph g =>
      have hk : (lookupV vars (String.mk (stripChars g))).isSome :=
        h _ (by simp [phNamesT])
      obtain ⟨v, hv⟩ := Option.isSome_iff_exists.mp hk
      obtain ⟨out, hout⟩ := ih (fun n hn => h n (by simp [phNamesT, hn]))
      exact ⟨v.data ++ out, by simp [substToks, hv, hout, Except.map]⟩

theorem substToks_error_of_missing (vars : List (String × String)) :
    ∀ ts : List Tok, (∃ n ∈ phNamesT ts, lookupV vars n = none) →
      ∃ n, n ∈ phNamesT ts ∧ lookupV vars n = none ∧
        substToks vars ts = Except.error n := by
  intro ts
  induction ts with
  | nil => rintro ⟨n, hn, _⟩; simp [phNamesT] at hn
  | cons t ts ih =>
    rintro ⟨n, hn, hnone⟩
    cases t with
    | lit c =>
      obtain ⟨m, hm1, hm2, hm3⟩ := ih ⟨n, by simpa [phNamesT] using hn, hnone⟩
      exact ⟨m, by simpa [phNamesT] using hm1, hm2,
        by simp [substToks, hm3, Except.map]⟩
    | ph g =>
      cases hk : lookupV vars (String.mk (stripChars g)) with
      | none =>
        exact ⟨String.mk (stripChars g), by simp [phNamesT], hk,
          by simp [substToks, hk]⟩
      | some v =>
        have hn' : n ∈ phNamesT ts := by
          rcases List.mem_cons.mp (by simpa [phNamesT] using hn) with h | h
          · rw [h] at hnone; simp [hnone] at hk
          · exact h
        obtain ⟨m, hm1, hm2, hm3⟩ := ih ⟨n, hn', hnone⟩
        exact ⟨m, by simp [phNamesT, hm1], hm2,
          by simp [substToks, hk, hm3, Except.map]⟩

theorem dropWhile_dropWhile (p : Char → Bool) :
    ∀ l : List Char, (l.dropWhile p).dropWhile p = l.dropWhile p := by
  intro l
  induction l with
  | nil => rfl
  | cons a l ih =>
    by_cases h : p a
    · simp [List.dropWhile_cons, h, ih]
    · simp [List.dropWhile_cons, h]

theorem length_dropWhile_le' (p : Char → Bool) :
    ∀ l : List Char, (l.dropWhile p).length ≤ l.length := by
  intro l
  induction l with
  | nil => simp
  | cons a l ih =>
    by_cases h : p a
    · rw [List.dropWhile_cons, if_pos h]
      exact ih.trans (Nat.le_succ _)
    · rw [List.dropWhile_cons, if_neg h]

theorem dropWhile_fix_head (p : Char → Bool) (c : Char) (cs : List Char)
    (h : (c :: cs).dropWhile p = c :: cs) : p c = false := by
  by_cases hc : p c
  · rw [List.dropWhile_cons, if_pos hc] at h
    have hlen := length_dropWhile_le' p cs
    rw [h] at hlen
    simp at hlen
  · exact Bool.eq_false_iff.mpr hc

theorem dropWhile_suffix' (p : Char → Bool) :
    ∀ l : List Char, l.dropWhile p <:+ l := by
  intro l
  induction l with
  | nil => exact List.suffix_rfl
  | cons a l ih =>
    by_cases h : p a
    · rw [List.dropWhile_cons, if_pos h]
      exact ih.trans (List.suffix_cons a l)
    · rw [List.dropWhile_cons, if_neg h]

theorem stripChars_idem (l : List Char) :
    stripChars (stripChars l) = stripChars l := by
  have hfixr : (stripChars l).reverse.dropWhile Char.isWhitespace
      = (stripChars l).reverse := by
    unfold stripChars
    rw [List.reverse_reverse]
    exact dropWhile_dropWhile _ _
  have hpre : stripChars l <+: l.dropWhile Char.isWhitespace := by
    have hsuf : (stripChars l).reverse <:+ (l.dropWhile Char.isWhitespace).reverse := by
      unfold stripChars
      rw [List.reverse_reverse]
      exact dropWhile_suffix' _ _
    exact List.reverse_suffix.mp (by simpa using hsuf)
  have hfixl : (stripChars l).dropWhile Char.isWhitespace = stripChars l := by
    cases hc : stripChars l with
    | nil => simp
    | cons c cs =>
      obtain ⟨t, ht⟩ := hpre
      rw [hc] at ht
      have hm : (l.dropWhile Char.isWhitespace).dropWhile Char.isWhitespace
          = l.dropWhile Char.isWhitespace := dropWhile_dropWhile _ _
      rw [← ht] at hm
      have hwc : Char.isWhitespace c = false := by
        have := dropWhile_fix_head Char.isWhitespace c (cs ++ t) (by simpa using hm)
        exact this
      simp [List.dropWhile_cons, hwc]
  have hdef : stripChars (stripChars l)
      = (((stripChars l).dropWhile Char.isWhitespace).reverse.dropWhile
          Char.isWhitespace).reverse := rfl
  rw [hdef, hfixl, hfixr, List.reverse_reverse]

theorem phNamesT_stripped :
    ∀ (ts : List Tok) (n : String), n ∈ phNamesT ts → stripName n = n := by
  intro ts
  induction ts with
  | nil => intro n hn; simp [phNamesT] at hn
  | cons t ts ih =>
    intro n hn
    cases t with
    | lit c => exact ih n (by simpa [phNamesT] using hn)
    | ph g =>
      rcases List.mem_cons.mp (by simpa [phNamesT] using hn) with h | h
      · subst h
        show String.mk (stripChars (stripChars g)) = _
        rw [stripChars_idem]
      · exact ih n h

theorem mem_extract_vars (content : String) (n : String) :
    n ∈ _extract_vars content ↔ n ∈ phNamesT (tokenize content.data) := by
  unfold _extract_vars
  rw [mem_dedupAux]
  simp

theorem substToks_ok_eq_join (vars : List (String × String)) :
    ∀ (ts : List Tok) (out : List Char),
      substToks vars ts = Except.ok out → out = substOutput vars ts := by
  intro ts
  induction ts with
  | nil =>
    intro out h
    injection h with h
    rw [← h]
    rfl
  | cons t ts ih =>
    intro out h
    cases t with
    | lit c =>
      have h' : (substToks vars ts).map (fun o => c :: o) = Except.ok out := h
      cases hs : substToks vars ts with
      | error e =>
        rw [hs] at h'
        simp [Except.map] at h'
      | ok l =>
        rw [hs] at h'
        simp only [Except.map, Except.ok.injEq] at h'
        rw [← h']
        show c :: l = c :: substOutput vars ts
        rw [ih l hs]
    | ph g =>
      cases hk : lookupV vars (String.mk (stripChars g)) with
      | none =>
        simp only [substToks, hk] at h
        exact Except.noConfusion h
      | some v =>
        simp only [substToks, hk] at h
        cases hs : substToks vars ts with
        | error e =>
          rw [hs] at h
          simp [Except.map] at h
        | ok l =>
          rw [hs] at h
          simp only [Except.map, Except.ok.injEq] at h
          rw [← h]
          have hout : substOutput vars (Tok.ph g :: ts)
              = v.data ++ substOutput vars ts := by
            simp [substOutput, hk]
          rw [hout, ih l hs]

theorem render_ok_data (content : String) (vars : List (String × String))
    (out : String) (h : _render content vars = Except.ok out) :
    out.data = substOutput vars (tokenize content.data) := by
  have h' : (substToks vars (tokenize content.data)).map String.mk
      = Except.ok out := h
  cases hs : substToks vars (tokenize content.data) with
  | error e =>
    rw [hs] at h'
    simp [Except.map] at h'
  | ok l =>
    rw [hs] at h'
    simp only [Except.map, Except.ok.injEq] at h'
    rw [← h']
    show l = substOutput vars (tokenize content.data)
    exact substToks_ok_eq_join vars _ l hs

theorem dedupAux_sublist :
    ∀ (l seen : List String), List.Sublist (dedupAux seen l) l := by
  intro l
  induction l with
  | nil =>
    intro seen
    exact List.nil_sublist []
  | cons x xs ih =>
    intro seen
    by_cases hx : x ∈ seen
    · rw [dedupAux, if_pos hx]
      exact List.Sublist.cons x (ih seen)
    · rw [dedupAux, if_neg hx]
      exact List.Sublist.cons₂ x (ih (x :: seen))

theorem dedupAux_eq_spec :
    ∀ (l seen : List String),
      dedupAux seen l
        = dedupFirstSpec (l.filter (fun y => decide (¬ y ∈ seen))) := by
  intro l
  induction l with
  | nil =>
    intro seen
    simp [dedupAux, dedupFirstSpec]
  | cons x xs ih =>
    intro seen
    by_cases hx : x ∈ seen
    · rw [dedupAux, if_pos hx, List.filter_cons_of_neg (by simp [hx])]
      exact ih seen
    · rw [dedupAux, if_neg hx, List.filter_cons_of_pos (by simp [hx])]
      simp only [dedupFirstSpec]
      rw [ih (x :: seen), List.filter_filter]
      congr 1
      refine congrArg dedupFirstSpec (List.filter_congr ?_)
      intro a _
      by_cases hax : a = x
      · subst hax; simp
      · by_cases has : a ∈ seen <;> simp [hax, has]

theorem find?_map_if_eq {α : Type} (p : α → Bool) (g : α → α)
    (hg : ∀ x, p (g x) = p x) :
    ∀ l : List α,
      (l.map (fun x => if p x then g x else x)).find? p = (l.find? p).map g := by
  intro l
  induction l with
  | nil => rfl
  | cons a l ih =>
    by_cases h : p a
    · simp only [List.map_cons, if_pos h]
      rw [List.find?_cons_of_pos _ (by rw [hg]; exact h),
          List.find?_cons_of_pos _ h]
      rfl
    · simp only [List.map_cons, if_neg h]
      rw [List.find?_cons_of_neg _ h, List.find?_cons_of_neg _ h]
      exact ih

theorem find?_map_if_ne {α : Type} (p q : α → Bool) (g : α → α)
    (hpq : ∀ x, p x = true → q x = false) (hq : ∀ x, q (g x) = q x) :
    ∀ l : List α,
      (l.map (fun x => if p x then g x else x)).find? q = l.find? q := by
  intro l
  induction l with
  | nil => rfl
  | cons a l ih =>
    by_cases h : p a
    · simp only [List.map_cons, if_pos h]
      rw [List.find?_cons_of_neg _ (by rw [hq]; simp [hpq a h]),
          List.find?_cons_of_neg _ (by simp [hpq a h])]
      exact ih
    · simp only [List.map_cons, if_neg h]
      by_cases hqa : q a
      · rw [List.find?_cons_of_pos _ hqa, List.find?_cons_of_pos _ hqa]
      · rw [List.find?_cons_of_neg _ hqa, List.find?_cons_of_neg _ hqa]
        exact ih

theorem find?_append_of_none {α : Type} (p : α → Bool) :
    ∀ l₁ l₂ : List α, l₁.find? p = none → (l₁ ++ l₂).find? p = l₂.find? p := by
  intro l₁
  induction l₁ with
  | nil => intro l₂ _; rfl
  | cons a l ih =>
    intro l₂ h
    by_cases ha : p a
    · rw [List.find?_cons_of_pos _ ha] at h; cases h
    · rw [List.find?_cons_of_neg _ ha] at h
      rw [List.cons_append, List.find?_cons_of_neg _ ha]
      exact ih l₂ h

theorem find?_filter_of_imp {α : Type} (q r : α → Bool)
    (h : ∀ x, q x = true → r x = true) :
    ∀ l : List α, (l.filter r).find? q = l.find? q := by
  intro l
  induction l with
  | nil => rfl
  | cons a l ih =>
    by_cases hr : r a
    · rw [List.filter_cons_of_pos hr]
      by_cases hq : q a
      · rw [List.find?_cons_of_pos _ hq, List.find?_cons_of_pos _ hq]
      · rw [List.find?_cons_of_neg _ hq, List.find?_cons_of_neg _ hq]
        exact ih
    · rw [List.filter_cons_of_neg hr]
      have hq : ¬ q a = true := fun hqa => hr (h a hqa)
      rw [List.find?_cons_of_neg _ hq]
      exact ih

theorem inv_init : EngineInv initState := by
  constructor <;> simp [initState]

theorem inv_create (s : EngineState) (hs : EngineInv s) (n c cat : String)
    (ts : Nat) : EngineInv (create_template s n c cat ts).2 := by
  cases h : lookupTemplate s n with
  | none =>
    simp only [create_template, h]
    exact ⟨hs.status_ok, hs.exported_iff, hs.doc_ids_nodup, hs.doc_id_lt,
      hs.rec_id_lt, hs.rec_doc_lt⟩
  | some t0 =>
    simp only [create_template, h]
    exact ⟨hs.status_ok, hs.exported_iff, hs.doc_ids_nodup, hs.doc_id_lt,
      hs.rec_id_lt, hs.rec_doc_lt⟩

theorem inv_render (s : EngineState) (hs : EngineInv s) (n t : String)
    (v : List (String × String)) (f : String) (ts : Nat) :
    EngineInv (render s n t v f ts).2 := by
  cases h : lookupTemplate s n with
  | none => simpa only [render, h] using hs
  | some row =>
    cases hr : _render row.content v with
    | error key => simpa only [render, h, hr] using hs
    | ok content =>
      simp only [render, h, hr]
      refine ⟨?_, ?_, ?_, ?_, ?_, ?_⟩
      · intro d hd
        rcases List.mem_append.mp hd with hd | hd
        · exact hs.status_ok d hd
        · rw [List.mem_singleton.mp hd]
          left; rfl
      · intro d hd
        rcases List.mem_append.mp hd with hd | hd
        · exact hs.exported_iff d hd
        · rw [List.mem_singleton.mp hd]
          constructor
          · intro hcontra
            have hds : ("draft" : String) = "exported" := hcontra
            simp at hds
          · rintro ⟨r, hr1, hr2⟩
            have hlt := hs.rec_doc_lt r hr1
            rw [hr2] at hlt
            exact absurd hlt (by simp)
      · rw [List.map_append, List.nodup_append]
        refine ⟨hs.doc_ids_nodup, by simp, ?_⟩
        intro x hx hx2
        simp only [List.map_cons, List.map_nil, List.mem_singleton] at hx2
        rcases List.mem_map.mp hx with ⟨d0, hd0, hid⟩
        have := hs.doc_id_lt d0 hd0
        rw [hid, hx2] at this
        exact absurd this (by simp)
      · intro d hd
        rcases List.mem_append.mp hd with hd | hd
        · exact Nat.lt_succ_of_lt (hs.doc_id_lt d hd)
        · rw [List.mem_singleton.mp hd]
          exact Nat.lt_succ_self _
      · intro r hr; exact hs.rec_id_lt r hr
      · intro r hr; exact Nat.lt_succ_of_lt (hs.rec_doc_lt r hr)

theorem inv_export (s : EngineState) (hs : EngineInv s) (docId : Nat)
    (fmtO : Option String) (ts : Nat) :
    EngineInv (export_document s docId fmtO ts).2 := by
  cases h : lookupDocument s docId with
  | none => simpa only [export_document, h] using hs
  | some row =>
    have hrowmem : row ∈ s.documents := List.mem_of_find?_eq_some h
    have hrowid : row.id = docId := by
      have := List.find?_some h
      simpa using this
    simp only [export_document, h]
    refine ⟨?_, ?_, ?_, ?_, ?_, ?_⟩
    · intro d hd
      rcases List.mem_map.mp hd with ⟨d0, hd0, hupd⟩
      by_cases hid : (d0.id == docId) = true
      · rw [← hupd, if_pos hid]
        right; rfl
      · rw [← hupd, if_neg hid]
        exact hs.status_ok d0 hd0
    · intro d hd
      rcases List.mem_map.mp hd with ⟨d0, hd0, hupd⟩
      by_cases hid : (d0.id == docId) = true
      · have hd0id : d0.id = docId := by simpa using hid
        rw [← hupd, if_pos hid]
        constructor
        · intro _
          refine ⟨_, List.mem_append_right _ (List.mem_singleton_self _), ?_⟩
          simp [hd0id]
        · intro _; rfl
      · have hd0id : ¬ d0.id = docId := by simpa using hid
        rw [← hupd, if_neg hid]
        rw [hs.exported_iff d0 hd0]
        constructor
        · rintro ⟨r, hr1, hr2⟩
          exact ⟨r, List.mem_append_left _ hr1, hr2⟩
        · rintro ⟨r, hr1, hr2⟩
          rcases List.mem_append.mp hr1 with hr1 | hr1
          · exact ⟨r, hr1, hr2⟩
          · rw [List.mem_singleton.mp hr1] at hr2
            exact absurd hr2.symm hd0id
    · have hmap : (s.documents.map (fun d =>
          if d.id == docId then { d with status := "exported" } else d)).map
            Document.id = s.documents.map Document.id := by
        rw [List.map_map]
        refine List.map_congr_left ?_
        intro a _
        by_cases hid : a.id = docId
        · simp [hid]
        · simp [hid]
      rw [hmap]
      exact hs.doc_ids_nodup
    · intro d hd
      rcases List.mem_map.mp hd with ⟨d0, hd0, hupd⟩
      have := hs.doc_id_lt d0 hd0
      rw [← hupd]
      by_cases hid : (d0.id == docId) = true
      · rw [if_pos hid]; exact this
      · rw [if_neg hid]; exact this
    · intro r hr
      rcases List.mem_append.mp hr with hr | hr
      · exact Nat.lt_succ_of_lt (hs.rec_id_lt r hr)
      · rw [List.mem_singleton.mp hr]
        exact Nat.lt_succ_self _
    · intro r hr
      rcases List.mem_append.mp hr with hr | hr
      · exact hs.rec_doc_lt r hr
      · rw [List.mem_singleton.mp hr]
        show docId < s.nextDocId
        rw [← hrowid]
        exact hs.doc_id_lt row hrowmem

theorem inv_foldl : ∀ (ops : List Op) (s : EngineState), EngineInv s →
    EngineInv (ops.foldl applyOp s) := by
  intro ops
  induction ops with
  | nil => intro s hs; exact hs
  | cons op ops ih =>
    intro s hs
    refine ih _ ?_
    cases op with
    | upsert n c cat ts => exact inv_create s hs n c cat ts
    | renderDoc n t v f ts => exact inv_render s hs n t v f ts
    | exportDoc id f ts => exact inv_export s hs id f ts

theorem inv_runOps (ops : List Op) : EngineInv (runOps ops) :=
  inv_foldl ops initState inv_init

theorem find?_append_right_none {α : Type} (p : α → Bool) :
    ∀ (l : List α) (a : α), p a = false → (l ++ [a]).find? p = l.find? p := by
  intro l
  induction l with
  | nil =>
    intro a ha
    rw [List.nil_append, List.find?_cons_of_neg _ (by simp [ha])]
  | cons x l ih =>
    intro a ha
    by_cases hx : p x
    · rw [List.cons_append, List.find?_cons_of_pos _ hx, List.find?_cons_of_pos _ hx]
    · rw [List.cons_append, List.find?_cons_of_neg _ hx, List.find?_cons_of_neg _ hx]
      exact ih a ha

/-- C1: if any placeholder's trimmed name is not a key of the mapping,
substitution fails with a missing-variable error identifying the offending
name and returns no output; invoked through `render` on an existing
template this surfaces as `missingVariable` — with the store left
untouched — which is a distinct error kind from `templateNotFound`. -/
theorem c1_missing_variable_error :
    (∀ (content : String) (vars : List (String × String)),
      (∃ n ∈ _extract_vars content, lookupV vars n = none) →
      ∃ n, n ∈ _extract_vars content ∧ lookupV vars n = none ∧
        _render content vars = Except.error n)
    ∧ (∀ (s : EngineState) (name title : String) (vars : List (String × String))
        (fmt : String) (ts : Nat) (tpl : Template),
        lookupTemplate s name = some tpl →
        (∃ n ∈ _extract_vars tpl.content, lookupV vars n = none) →
        ∃ n, render s name title vars fmt ts
          = (Except.error (EngineError.missingVariable n), s))
    ∧ (∀ (n : String) (m : String),
        EngineError.missingVariable n ≠ EngineError.templateNotFound m) := by
  refine ⟨?_, ?_, ?_⟩
  · rintro content vars ⟨n, hn, hnone⟩
    obtain ⟨m, hm1, hm2, hm3⟩ := substToks_error_of_missing vars
      (tokenize content.data) ⟨n, (mem_extract_vars content n).mp hn, hnone⟩
    exact ⟨m, (mem_extract_vars content m).mpr hm1, hm2,
      by simp [_render, hm3, Except.map]⟩
  · rintro s name title vars fmt ts tpl htpl ⟨n, hn, hnone⟩
    obtain ⟨m, hm1, hm2, hm3⟩ := substToks_error_of_missing vars
      (tokenize tpl.content.data) ⟨n, (mem_extract_vars tpl.content n).mp hn, hnone⟩
    refine ⟨m, ?_⟩
    have hrend : _render tpl.content vars = Except.error m := by
      simp [_render, hm3, Except.map]
    simp only [render, htpl, hrend]
  · intro n m h
    exact EngineError.noConfusion h

/-- Witness for C1: substituting `\x7b\x7bx\x7d\x7d` with an empty mapping
fails with the missing name `x`. -/
theorem c1_missing_variable_error_witness :
    ∃ n, n ∈ _extract_vars "\x7b\x7bx\x7d\x7d" ∧ lookupV [] n = none ∧
      _render "\x7b\x7bx\x7d\x7d" [] = Except.error n :=
  c1_missing_variable_error.1 "\x7b\x7bx\x7d\x7d" [] ⟨"x", by decide, by decide⟩

/-- C2: a mapping covering every extracted placeholder name makes
substitution succeed, and EVERY successful output is exactly the
token-wise replacement `substOutput` of the scanned input — every
placeholder token present in the input is consumed and replaced by its
value, so zero of them remain; the stored content of a document produced
by `render` is exactly that substitution output, hence contains no
unsubstituted placeholder of its template; and substitution is
single-pass — a value that itself looks like a placeholder is not
re-substituted. -/
theorem c2_substitution_success :
    (∀ (content : String) (vars : List (String × String)),
      (∀ n ∈ _extract_vars content, (lookupV vars n).isSome) →
      ∃ out, _render content vars = Except.ok out)
    ∧ (∀ (content : String) (vars : List (String × String)) (out : String),
        _render content vars = Except.ok out →
        out.data = substOutput vars (tokenize content.data))
    ∧ (∀ (s : EngineState) (name title : String) (vars : List (String × String))
        (fmt : String) (ts : Nat) (tpl : Template) (doc : Document)
        (s' : EngineState),
        lookupTemplate s name = some tpl →
        render s name title vars fmt ts = (Except.ok doc, s') →
        _render tpl.content vars = Except.ok doc.content
        ∧ doc.content.data = substOutput vars (tokenize tpl.content.data))
    ∧ _render "\x7b\x7ba\x7d\x7d" [("a", "\x7b\x7bb\x7d\x7d"), ("b", "X")]
        = Except.ok "\x7b\x7bb\x7d\x7d" := by
  refine ⟨?_, ?_, ?_, by decide⟩
  · intro content vars h
    obtain ⟨out, hout⟩ := substToks_ok_of_covered vars (tokenize content.data)
      (fun n hn => h n ((mem_extract_vars content n).mpr hn))
    exact ⟨String.mk out, by simp [_render, hout, Except.map]⟩
  · intro content vars out h
    exact render_ok_data content vars out h
  · intro s name title vars fmt ts tpl doc s' htpl hrender
    have hmain : _render tpl.content vars = Except.ok doc.content := by
      cases hr : _render tpl.content vars with
      | error key =>
        simp only [render, htpl, hr] at hrender
        simp only [Prod.mk.injEq] at hrender
        exact absurd hrender.1 (by simp)
      | ok out =>
        simp only [render, htpl, hr] at hrender
        rw [Prod.mk.injEq] at hrender
        obtain ⟨hd, _⟩ := hrender
        injection hd with hd
        rw [← hd]
    exact ⟨hmain, render_ok_data _ _ _ hmain⟩

/-- Witness for C2: a mapping covering the single placeholder of
`Hello \x7b\x7bname\x7d\x7d` renders successfully. -/
theorem c2_substitution_success_witness :
    (∀ n ∈ _extract_vars "Hello \x7b\x7bname\x7d\x7d",
      (lookupV [("name", "Alice")] n).isSome)
    ∧ ∃ out, _render "Hello \x7b\x7bname\x7d\x7d" [("name", "Alice")]
        = Except.ok out :=
  ⟨by decide, c2_substitution_success.1 "Hello \x7b\x7bname\x7d\x7d"
    [("name", "Alice")] (by decide)⟩

/-- C3: the extractor returns the distinct placeholder names, each trimmed
of surrounding whitespace, in first-occurrence order with duplicates
removed: membership agrees with the raw occurrence list, the output is a
subsequence of that occurrence list (so the order of occurrences is
preserved), and the output equals the spec-side first-occurrence
deduplication `dedupFirstSpec` of the occurrence list; no placeholders
yields the empty sequence; and extracting from
`\x7b\x7bb\x7d\x7d \x7b\x7ba\x7d\x7d \x7b\x7bb\x7d\x7d` yields
`["b", "a"]`. -/
theorem c3_extract_vars_spec :
    (∀ content : String, (_extract_vars content).Nodup)
    ∧ (∀ (content n : String), n ∈ _extract_vars content → stripName n = n)
    ∧ (∀ (content n : String),
        n ∈ _extract_vars content ↔ n ∈ phNamesT (tokenize content.data))
    ∧ (∀ content : String,
        phNamesT (tokenize content.data) = [] → _extract_vars content = [])
    ∧ _extract_vars "\x7b\x7bb\x7d\x7d \x7b\x7ba\x7d\x7d \x7b\x7bb\x7d\x7d" = ["b", "a"]
    ∧ _extract_vars "no placeholders here" = []
    ∧ (∀ content : String,
        List.Sublist (_extract_vars content) (phNamesT (tokenize content.data)))
    ∧ (∀ content : String,
        _extract_vars content
          = dedupFirstSpec (phNamesT (tokenize content.data))) := by
  refine ⟨?_, ?_, ?_, ?_, by decide, by decide, ?_, ?_⟩
  · intro content
    exact nodup_dedupAux _ []
  · intro content n hn
    exact phNamesT_stripped _ n ((mem_extract_vars content n).mp hn)
  · intro content n
    exact mem_extract_vars content n
  · intro content h
    unfold _extract_vars
    rw [h]
    rfl
  · intro content
    exact dedupAux_sublist _ []
  · intro content
    show dedupAux [] (phNamesT (tokenize content.data)) = _
    rw [dedupAux_eq_spec]
    refine congrArg dedupFirstSpec (List.filter_eq_self.mpr ?_)
    intro a _
    simp

/-- Witness for C3: the name extracted from `\x7b\x7b a \x7d\x7d` is
trimmed. -/
theorem c3_extract_vars_spec_witness :
    ("a" ∈ _extract_vars "\x7b\x7b a \x7d\x7d") ∧ stripName "a" = "a" :=
  ⟨by decide, c3_extract_vars_spec.2.1 "\x7b\x7b a \x7d\x7d" "a" (by decide)⟩

/-- C4: a first upsert of a name creates the stored template at version 1
with created = updated = now and the extractor's output as its variable
list; a later upsert of the same name overwrites content/variables/
category in the store, sets updated to now, keeps the original creation
time and increments the version by exactly 1; an upsert never touches
templates stored under a different name (so a fresh name still starts at
version 1). -/
theorem c4_upsert_versioning :
    (∀ (s : EngineState) (n c cat : String) (ts : Nat),
      lookupTemplate s n = none →
        (create_template s n c cat ts).1.version = 1
        ∧ (create_template s n c cat ts).1.created_at = ts
        ∧ (create_template s n c cat ts).1.updated_at = ts
        ∧ (create_template s n c cat ts).1.vars = _extract_vars c
        ∧ lookupTemplate (create_template s n c cat ts).2 n
            = some (create_template s n c cat ts).1)
    ∧ (∀ (s : EngineState) (n c cat : String) (ts : Nat) (t0 : Template),
        lookupTemplate s n = some t0 →
        ∃ t1, lookupTemplate (create_template s n c cat ts).2 n = some t1
          ∧ t1.version = t0.version + 1 ∧ t1.content = c
          ∧ t1.vars = _extract_vars c ∧ t1.category = cat
          ∧ t1.updated_at = ts ∧ t1.created_at = t0.created_at
          ∧ t1.id = t0.id)
    ∧ (∀ (s : EngineState) (n c cat m : String) (ts : Nat),
        m ≠ n → lookupTemplate (create_template s n c cat ts).2 m
          = lookupTemplate s m) := by
  refine ⟨?_, ?_, ?_⟩
  · intro s n c cat ts h
    have h' : s.templates.find? (fun t => t.name == n) = none := h
    have hct : create_template s n c cat ts
        = (⟨s.nextTemplateId, n, c, _extract_vars c, cat, 1, ts, ts⟩,
           { s with
              templates := s.templates
                ++ [⟨s.nextTemplateId, n, c, _extract_vars c, cat, 1, ts, ts⟩],
              nextTemplateId := s.nextTemplateId + 1 }) := by
      unfold create_template
      rw [h]
    rw [hct]
    refine ⟨rfl, rfl, rfl, rfl, ?_⟩
    show (s.templates ++ [(⟨s.nextTemplateId, n, c, _extract_vars c, cat, 1, ts,
      ts⟩ : Template)]).find? (fun t => t.name == n) = _
    rw [find?_append_of_none _ _ _ h', List.find?_cons_of_pos _ (by simp)]
  · intro s n c cat ts t0 h
    have h' : s.templates.find? (fun t => t.name == n) = some t0 := h
    have hct : (create_template s n c cat ts).2.templates
        = s.templates.map (fun t =>
            if t.name == n then
              { t with
                  content := c, vars := _extract_vars c, category := cat,
                  version := t0.version + 1, updated_at := ts }
            else t) := by
      unfold create_template
      rw [h]
    refine ⟨{ t0 with
        content := c, vars := _extract_vars c, category := cat,
        version := t0.version + 1, updated_at := ts },
      ?_, rfl, rfl, rfl, rfl, rfl, rfl, rfl⟩
    show (create_template s n c cat ts).2.templates.find?
      (fun t => t.name == n) = _
    rw [hct]
    have hfind := find?_map_if_eq (fun (t : Template) => t.name == n)
      (fun t => { t with
          content := c, vars := _extract_vars c, category := cat,
          version := t0.version + 1, updated_at := ts })
      (fun x => rfl) s.templates
    rw [h'] at hfind
    exact hfind
  · intro s n c cat m ts hmn
    cases h : lookupTemplate s n with
    | none =>
      have hct : (create_template s n c cat ts).2.templates
          = s.templates
              ++ [⟨s.nextTemplateId, n, c, _extract_vars c, cat, 1, ts, ts⟩] := by
        unfold create_template
        rw [h]
      show (create_template s n c cat ts).2.templates.find?
        (fun t => t.name == m) = _
      rw [hct, find?_append_right_none _ _ _ (by simp [Ne.symm hmn])]
      rfl
    | some t0 =>
      have hct : (create_template s n c cat ts).2.templates
          = s.templates.map (fun t =>
              if t.name == n then
                { t with
                    content := c, vars := _extract_vars c, category := cat,
                    version := t0.version + 1, updated_at := ts }
              else t) := by
        unfold create_template
        rw [h]
      have hpq : ∀ x : Template, (x.name == n) = true → (x.name == m) = false := by
        intro x hx
        have hxn : x.name = n := by simpa using hx
        simp [hxn, Ne.symm hmn]
      show (create_template s n c cat ts).2.templates.find?
        (fun t => t.name == m) = _
      rw [hct]
      exact find?_map_if_ne (fun (t : Template) => t.name == n)
        (fun (t : Template) => t.name == m)
        (fun t => { t with
            content := c, vars := _extract_vars c, category := cat,
            version := t0.version + 1, updated_at := ts })
        hpq (fun x => rfl) s.templates

/-- Witness for C4: on a fresh store, upserting `x` creates version 1. -/
theorem c4_upsert_versioning_witness :
    lookupTemplate initState "x" = none
    ∧ (create_template initState "x" "c" "general" 5).1.version = 1 :=
  ⟨by decide, (c4_upsert_versioning.1 initState "x" "c" "general" 5 (by decide)).1⟩

theorem lookupFile_writeFile_ne (files : List (String × String))
    (path content p : String) (hp : p ≠ path) :
    lookupFile (writeFile files path content) p = lookupFile files p := by
  unfold lookupFile writeFile
  rw [List.find?_cons_of_neg _ (by simp [Ne.symm hp])]
  have himp : ∀ e : String × String, (e.1 == p) = true → (e.1 != path) = true := by
    intro e he
    have he' : e.1 = p := by simpa using he
    simp [he', hp]
  rw [find?_filter_of_imp _ _ himp files]

theorem mem_writeFile_of_fresh (files : List (String × String))
    (path content : String) (hfresh : ∀ e ∈ files, e.1 ≠ path) :
    ∀ e ∈ files, e ∈ writeFile files path content := by
  intro e he
  unfold writeFile
  refine List.mem_cons_of_mem _ ?_
  rw [List.mem_filter]
  exact ⟨he, by simp [hfresh e he]⟩

/-- C5: in every state reachable by the core operations each document's
status is `draft` or `exported` (so no core operation assigns `final`),
and a document is `exported` exactly when at least one successful export
of it has occurred; `render` creates every document in status `draft`;
and exporting any present document — also an already-exported one —
succeeds, appends one fresh export record, and leaves the document
`exported`. -/
theorem c5_status_machine :
    (∀ ops : List Op, ∀ d ∈ (runOps ops).documents,
      ((d.status = "draft" ∨ d.status = "exported")
        ∧ (d.status = "exported"
            ↔ ∃ r ∈ (runOps ops).exports, r.document_id = d.id)
        ∧ (∀ (fmtO : Option String) (ts : Nat), ∃ rec1,
            (export_document (runOps ops) d.id fmtO ts).1 = Except.ok rec1
            ∧ (export_document (runOps ops) d.id fmtO ts).2.exports
                = (runOps ops).exports ++ [rec1]
            ∧ (∀ r ∈ (runOps ops).exports, rec1.id ≠ r.id)
            ∧ (∀ d' ∈ (export_document (runOps ops) d.id fmtO ts).2.documents,
                d'.id = d.id → d'.status = "exported"))))
    ∧ (∀ (s : EngineState) (n t : String) (v : List (String × String))
        (f : String) (ts : Nat) (doc : Document) (s' : EngineState),
        render s n t v f ts = (Except.ok doc, s') → doc.status = "draft") := by
  refine ⟨?_, ?_⟩
  · intro ops d hd
    have hinv := inv_runOps ops
    refine ⟨hinv.status_ok d hd, hinv.exported_iff d hd, ?_⟩
    intro fmtO ts
    obtain ⟨row, hrow⟩ : ∃ row, lookupDocument (runOps ops) d.id = some row := by
      cases hl : lookupDocument (runOps ops) d.id with
      | some row => exact ⟨row, rfl⟩
      | none =>
        have := List.find?_eq_none.mp hl d hd
        simp at this
    simp only [export_document, hrow]
    refine ⟨_, rfl, rfl, ?_, ?_⟩
    · intro r hr heq
      have h2 := hinv.rec_id_lt r hr
      rw [← heq] at h2
      simp at h2
    · intro d' hd' hid
      rcases List.mem_map.mp hd' with ⟨d0, hd0, hupd⟩
      by_cases hmatch : (d0.id == d.id) = true
      · rw [← hupd, if_pos hmatch]
      · rw [← hupd, if_neg hmatch]
        rw [← hupd, if_neg hmatch] at hid
        exact absurd hid (by simpa using hmatch)
  · intro s n t v f ts doc s' h
    cases hl : lookupTemplate s n with
    | none =>
      simp only [render, hl, Prod.mk.injEq] at h
      exact absurd h.1 (by simp)
    | some row =>
      cases hr : _render row.content v with
      | error key =>
        simp only [render, hl, hr, Prod.mk.injEq] at h
        exact absurd h.1 (by simp)
      | ok content =>
        simp only [render, hl, hr, Prod.mk.injEq] at h
        obtain ⟨hd, _⟩ := h
        injection hd with hd
        rw [← hd]

/-- Witness for C5 on the concrete reachable state `exState`. -/
theorem c5_status_machine_witness :
    (exDoc ∈ (runOps exOps).documents)
    ∧ (exDoc.status = "draft" ∨ exDoc.status = "exported") :=
  ⟨by decide, (c5_status_machine.1 exOps exDoc (by decide)).1⟩

/-- C6: export wraps the content per the effective format — `txt`
verbatim, `md` as a level-1 heading with the title, a blank line, the
content and a trailing newline, `html` as a minimal page with the title
as page title and h1 and the content, not HTML-escaped, inside a pre
block; the written file holds exactly the wrapped body; and the md
example of the spec evaluates as stated. -/
theorem c6_format_wrapping :
    (∀ title content : String, formatBody "txt" title content = content)
    ∧ (∀ title content : String, formatBody "md" title content
        = "# " ++ title ++ "\n\n" ++ content ++ "\n")
    ∧ (∀ title content : String, formatBody "html" title content
        = "<!DOCTYPE html><html><head><title>" ++ title
          ++ "</title></head><body><h1>" ++ title ++ "</h1><pre>" ++ content
          ++ "</pre></body></html>")
    ∧ formatBody "md" "Invoice #1" "Total: 10" = "# Invoice #1\n\nTotal: 10\n"
    ∧ (∀ (s : EngineState) (docId : Nat) (fmtO : Option String) (ts : Nat)
        (doc : Document), lookupDocument s docId = some doc →
        ∃ rec1 s', export_document s docId fmtO ts = (Except.ok rec1, s')
          ∧ lookupFile s'.files rec1.export_path
              = some (formatBody rec1.export_format doc.title doc.content)) := by
  refine ⟨fun title content => rfl, fun title content => rfl,
    fun title content => rfl, by decide, ?_⟩
  intro s docId fmtO ts doc h
  simp only [export_document, h]
  refine ⟨_, _, rfl, ?_⟩
  simp only [lookupFile, writeFile]
  rw [List.find?_cons_of_pos _ (by simp)]
  rfl

/-- Witness for C6: exporting the document of `exState`. -/
theorem c6_format_wrapping_witness :
    (lookupDocument exState 1 = some exDoc)
    ∧ ∃ rec1 s', export_document exState 1 none 0 = (Except.ok rec1, s')
        ∧ lookupFile s'.files rec1.export_path
            = some (formatBody rec1.export_format exDoc.title exDoc.content) :=
  ⟨by decide, c6_format_wrapping.2.2.2.2 exState 1 none 0 exDoc (by decide)⟩

/-- C7: export fails exactly when the document id is absent, and then the
whole state — documents, export records and files — is unchanged; on
success one export record is appended and the byte size it stores equals
the byte size of the file written at the recorded path. -/
theorem c7_export_failure_and_size :
    (∀ (s : EngineState) (docId : Nat) (fmtO : Option String) (ts : Nat),
      lookupDocument s docId = none →
        export_document s docId fmtO ts
          = (Except.error (EngineError.documentNotFound docId), s))
    ∧ (∀ (s : EngineState) (docId : Nat) (fmtO : Option String) (ts : Nat),
        (∃ e, (export_document s docId fmtO ts).1 = Except.error e)
          ↔ lookupDocument s docId = none)
    ∧ (∀ (s : EngineState) (docId : Nat) (fmtO : Option String) (ts : Nat)
        (doc : Document), lookupDocument s docId = some doc →
        ∃ rec1 s', export_document s docId fmtO ts = (Except.ok rec1, s')
          ∧ s'.exports = s.exports ++ [rec1]
          ∧ ∃ body, lookupFile s'.files rec1.export_path = some body
              ∧ rec1.file_size_bytes = utf8Len body) := by
  refine ⟨?_, ?_, ?_⟩
  · intro s docId fmtO ts h
    simp only [export_document, h]
  · intro s docId fmtO ts
    constructor
    · rintro ⟨e, he⟩
      cases h : lookupDocument s docId with
      | none => rfl
      | some doc =>
        simp only [export_document, h] at he
        exact Except.noConfusion he
    · intro h
      refine ⟨EngineError.documentNotFound docId, ?_⟩
      simp only [export_document, h]
  · intro s docId fmtO ts doc h
    simp only [export_document, h]
    refine ⟨_, _, rfl, rfl, _, ?_, rfl⟩
    simp only [lookupFile, writeFile]
    rw [List.find?_cons_of_pos _ (by simp)]
    rfl

/-- Witness for C7: exporting a missing id on a fresh store fails and
leaves the store unchanged. -/
theorem c7_export_failure_and_size_witness :
    (lookupDocument initState 7 = none)
    ∧ export_document initState 7 none 0
        = (Except.error (EngineError.documentNotFound 7), initState) :=
  ⟨by decide, c7_export_failure_and_size.1 initState 7 none 0 (by decide)⟩

/-- C8 counterexample: two successful exports of the same document at the
same second-resolution clock reading produce the SAME output path, and
after the second export only one file exists — the second export did not
write at a path distinct from every previously written export path. -/
theorem c8_counterexample :
    ((export_document exState 1 none 0).1.toOption.map ExportRecord.export_path
        = some (DOCS_DIR ++ "Doc_0.txt"))
    ∧ ((export_document (export_document exState 1 none 0).2 1 none
          0).1.toOption.map ExportRecord.export_path
        = some (DOCS_DIR ++ "Doc_0.txt"))
    ∧ ((export_document (export_document exState 1 none 0).2 1 none
          0).2.files.map Prod.fst = [DOCS_DIR ++ "Doc_0.txt"]) := by decide

/-- C8 amended: each successful export writes only at its computed output
path (slugged title + second-resolution timestamp tag + format): the file
at every other path is unchanged, and when the computed path differs from
all previously written paths — in particular when the timestamp tag is
fresh — every previously written file survives. -/
theorem c8_fresh_path_no_overwrite :
    ∀ (s : EngineState) (docId : Nat) (fmtO : Option String) (ts : Nat)
      (doc : Document), lookupDocument s docId = some doc →
      ∃ rec1 s', export_document s docId fmtO ts = (Except.ok rec1, s')
        ∧ (∀ p : String, p ≠ rec1.export_path →
            lookupFile s'.files p = lookupFile s.files p)
        ∧ ((∀ e ∈ s.files, e.1 ≠ rec1.export_path) →
            ∀ e ∈ s.files, e ∈ s'.files) := by
  intro s docId fmtO ts doc h
  simp only [export_document, h]
  refine ⟨_, _, rfl, ?_, ?_⟩
  · intro p hp
    exact lookupFile_writeFile_ne s.files _ _ p hp
  · intro hfresh
    exact mem_writeFile_of_fresh s.files _ _ hfresh

/-- Witness for C8 (amended) on the concrete state `exState`. -/
theorem c8_fresh_path_no_overwrite_witness :
    (lookupDocument exState 1 = some exDoc)
    ∧ ∃ rec1 s', export_document exState 1 none 0 = (Except.ok rec1, s')
        ∧ (∀ p : String, p ≠ rec1.export_path →
            lookupFile s'.files p = lookupFile exState.files p)
        ∧ ((∀ e ∈ exState.files, e.1 ≠ rec1.export_path) →
            ∀ e ∈ exState.files, e ∈ s'.files) :=
  ⟨by decide, c8_fresh_path_no_overwrite exState 1 none 0 exDoc (by decide)⟩

/-- C9 counterexample: upsert `x` at time 0 and again at time 1; the
stored template keeps created_at 0 while the returned Template carries
created_at 1, so the returned value does not equal the stored post-update
state in every field. -/
theorem c9_counterexample :
    (lookupTemplate (create_template (create_template initState "x" "c1"
        "general" 0).2 "x" "c2" "general" 1).2 "x").map Template.created_at
      ≠ some (create_template (create_template initState "x" "c1" "general"
        0).2 "x" "c2" "general" 1).1.created_at := by decide

/-- C9 amended: on the create branch the returned Template equals the
stored one in every field; on the update branch it matches the stored row
in every field except created_at — the store keeps the original creation
time while the returned value carries the operation timestamp. -/
theorem c9_returned_vs_stored :
    (∀ (s : EngineState) (n c cat : String) (ts : Nat),
      lookupTemplate s n = none →
        lookupTemplate (create_template s n c cat ts).2 n
          = some (create_template s n c cat ts).1)
    ∧ (∀ (s : EngineState) (n c cat : String) (ts : Nat) (t0 : Template),
        lookupTemplate s n = some t0 →
        ∃ t1, lookupTemplate (create_template s n c cat ts).2 n = some t1
          ∧ t1.id = (create_template s n c cat ts).1.id
          ∧ t1.name = (create_template s n c cat ts).1.name
          ∧ t1.content = (create_template s n c cat ts).1.content
          ∧ t1.vars = (create_template s n c cat ts).1.vars
          ∧ t1.category = (create_template s n c cat ts).1.category
          ∧ t1.version = (create_template s n c cat ts).1.version
          ∧ t1.updated_at = (create_template s n c cat ts).1.updated_at
          ∧ t1.created_at = t0.created_at
          ∧ (create_template s n c cat ts).1.created_at = ts) := by
  refine ⟨?_, ?_⟩
  · intro s n c cat ts h
    have h' : s.templates.find? (fun t => t.name == n) = none := h
    have hct : create_template s n c cat ts
        = (⟨s.nextTemplateId, n, c, _extract_vars c, cat, 1, ts, ts⟩,
           { s with
              templates := s.templates
                ++ [⟨s.nextTemplateId, n, c, _extract_vars c, cat, 1, ts, ts⟩],
              nextTemplateId := s.nextTemplateId + 1 }) := by
      unfold create_template
      rw [h]
    rw [hct]
    show (s.templates ++ [(⟨s.nextTemplateId, n, c, _extract_vars c, cat, 1, ts,
      ts⟩ : Template)]).find? (fun t => t.name == n) = _
    rw [find?_append_of_none _ _ _ h', List.find?_cons_of_pos _ (by simp)]
  · intro s n c cat ts t0 h
    have h' : s.templates.find? (fun t => t.name == n) = some t0 := h
    have hct1 : (create_template s n c cat ts).1
        = ⟨t0.id, n, c, _extract_vars c, cat, t0.version + 1, ts, ts⟩ := by
      unfold create_template
      rw [h]
    have hct : (create_template s n c cat ts).2.templates
        = s.templates.map (fun t =>
            if t.name == n then
              { t with
                  content := c, vars := _extract_vars c, category := cat,
                  version := t0.version + 1, updated_at := ts }
            else t) := by
      unfold create_template
      rw [h]
    have ht0n : t0.name = n := by
      simpa using List.find?_some h'
    rw [hct1]
    refine ⟨{ t0 with
        content := c, vars := _extract_vars c, category := cat,
        version := t0.version + 1, updated_at := ts },
      ?_, rfl, ht0n, rfl, rfl, rfl, rfl, rfl, rfl, rfl⟩
    show (create_template s n c cat ts).2.templates.find?
      (fun t => t.name == n) = _
    rw [hct]
    have hfind := find?_map_if_eq (fun (t : Template) => t.name == n)
      (fun t => { t with
          content := c, vars := _extract_vars c, category := cat,
          version := t0.version + 1, updated_at := ts })
      (fun x => rfl) s.templates
    rw [h'] at hfind
    exact hfind

/-- Witness for C9 (amended): a first upsert returns exactly the stored
template. -/
theorem c9_returned_vs_stored_witness :
    (lookupTemplate initState "x" = none)
    ∧ lookupTemplate (create_template initState "x" "c" "general" 3).2 "x"
        = some (create_template initState "x" "c" "general" 3).1 :=
  ⟨by decide, c9_returned_vs_stored.1 initState "x" "c" "general" 3 (by decide)⟩

/-- C10: an empty-string format override is falsy in Python (`fmt or
row["fmt"]`), so it falls back to the document's stored format exactly
like a missing override: the two calls agree on every state. -/
theorem c10_empty_format_override :
    ∀ (s : EngineState) (docId : Nat) (ts : Nat),
      export_document s docId (some "") ts = export_document s docId none ts := by
  intro s docId ts
  cases h : lookupDocument s docId with
  | none => simp only [export_document, h]
  | some row => simp [export_document, h]

end DocAuto
